import Mathlib

/-!
Verification of the primesieve wheel-factorization core against its
natural-language specification.  The static lookup tables are transcribed
from src/src/LookupTables.cpp; the generator shim from
src/src/soe/PrimeNumberGenerator.cpp.  Code of the repository that is not
under src/ (the SieveOfEratosthenes engine, the GENERATE_PRIMES macro,
bits.hpp, imath.h) is modelled from the specification where a claim needs
it; those definitions carry a doc comment starting with
"Modelled from the spec:".
-/

namespace Primesieve

/-- Transcribed from src/src/LookupTables.cpp: the 65-entry table mapping a
count-trailing-zeros result to the byte offset it represents inside a
240-wide span; entry 64 is the 0 sentinel for a zero input word. -/
def bitValues : List Nat :=
  [ 7,  11,  13,  17,  19,  23,  29, 31,
   37,  41,  43,  47,  49,  53,  59, 61,
   67,  71,  73,  77,  79,  83,  89, 91,
   97, 101, 103, 107, 109, 113, 119, 121,
  127, 131, 133, 137, 139, 143, 149, 151,
  157, 161, 163, 167, 169, 173, 179, 181,
  187, 191, 193, 197, 199, 203, 209, 211,
  217, 221, 223, 227, 229, 233, 239, 241,
  0]

/-- Transcribed from src/src/LookupTables.cpp: the 64-entry De Bruijn
bitscan table. -/
def bruijnBitValues : List Nat :=
  [ 7,  47,  11,  49,  67, 113,  13,  53,
   89,  71, 161, 101, 119, 187,  17, 233,
   59,  79,  91,  73, 133, 139, 163, 103,
  149, 121, 203, 169, 191, 217,  19, 239,
   43,  61, 109,  83, 157,  97, 181, 229,
   77, 131, 137, 143, 199, 167, 211,  41,
  107, 151, 179, 227, 127, 197, 209,  37,
  173, 223, 193,  31, 221,  29,  23, 241]

/-- WheelInit record, as declared in Wheel.hpp: the distance to the next
wheel-eligible integer and the wheel index of that integer's residue
class. -/
structure WheelInit where
  nextMultipleFactor : Nat
  wheelIndex : Nat
deriving Repr, DecidableEq

/-- Transcribed from src/src/LookupTables.cpp: wheel30Init, one entry per
residue 0..29. -/
def wheel30Init : List WheelInit :=
  [⟨1, 0⟩, ⟨0, 0⟩, ⟨5, 1⟩, ⟨4, 1⟩, ⟨3, 1⟩, ⟨2, 1⟩, ⟨1, 1⟩, ⟨0, 1⟩,
   ⟨3, 2⟩, ⟨2, 2⟩, ⟨1, 2⟩, ⟨0, 2⟩, ⟨1, 3⟩, ⟨0, 3⟩, ⟨3, 4⟩, ⟨2, 4⟩,
   ⟨1, 4⟩, ⟨0, 4⟩, ⟨1, 5⟩, ⟨0, 5⟩, ⟨3, 6⟩, ⟨2, 6⟩, ⟨1, 6⟩, ⟨0, 6⟩,
   ⟨5, 7⟩, ⟨4, 7⟩, ⟨3, 7⟩, ⟨2, 7⟩, ⟨1, 7⟩, ⟨0, 7⟩]

/-- Chunk 0 of wheel210Init (entries 0..29); the full table is their concatenation. -/
def wheel210InitPart0 : List WheelInit :=
  [⟨1, 0⟩, ⟨0, 0⟩, ⟨9, 1⟩, ⟨8, 1⟩, ⟨7, 1⟩, ⟨6, 1⟩,
   ⟨5, 1⟩, ⟨4, 1⟩, ⟨3, 1⟩, ⟨2, 1⟩, ⟨1, 1⟩, ⟨0, 1⟩,
   ⟨1, 2⟩, ⟨0, 2⟩, ⟨3, 3⟩, ⟨2, 3⟩, ⟨1, 3⟩, ⟨0, 3⟩,
   ⟨1, 4⟩, ⟨0, 4⟩, ⟨3, 5⟩, ⟨2, 5⟩, ⟨1, 5⟩, ⟨0, 5⟩,
   ⟨5, 6⟩, ⟨4, 6⟩, ⟨3, 6⟩, ⟨2, 6⟩, ⟨1, 6⟩, ⟨0, 6⟩]

/-- Chunk 1 of wheel210Init (entries 30..59); the full table is their concatenation. -/
def wheel210InitPart1 : List WheelInit :=
  [⟨1, 7⟩, ⟨0, 7⟩, ⟨5, 8⟩, ⟨4, 8⟩, ⟨3, 8⟩, ⟨2, 8⟩,
   ⟨1, 8⟩, ⟨0, 8⟩, ⟨3, 9⟩, ⟨2, 9⟩, ⟨1, 9⟩, ⟨0, 9⟩,
   ⟨1, 10⟩, ⟨0, 10⟩, ⟨3, 11⟩, ⟨2, 11⟩, ⟨1, 11⟩, ⟨0, 11⟩,
   ⟨5, 12⟩, ⟨4, 12⟩, ⟨3, 12⟩, ⟨2, 12⟩, ⟨1, 12⟩, ⟨0, 12⟩,
   ⟨5, 13⟩, ⟨4, 13⟩, ⟨3, 13⟩, ⟨2, 13⟩, ⟨1, 13⟩, ⟨0, 13⟩]

/-- Chunk 2 of wheel210Init (entries 60..89); the full table is their concatenation. -/
def wheel210InitPart2 : List WheelInit :=
  [⟨1, 14⟩, ⟨0, 14⟩, ⟨5, 15⟩, ⟨4, 15⟩, ⟨3, 15⟩, ⟨2, 15⟩,
   ⟨1, 15⟩, ⟨0, 15⟩, ⟨3, 16⟩, ⟨2, 16⟩, ⟨1, 16⟩, ⟨0, 16⟩,
   ⟨1, 17⟩, ⟨0, 17⟩, ⟨5, 18⟩, ⟨4, 18⟩, ⟨3, 18⟩, ⟨2, 18⟩,
   ⟨1, 18⟩, ⟨0, 18⟩, ⟨3, 19⟩, ⟨2, 19⟩, ⟨1, 19⟩, ⟨0, 19⟩,
   ⟨5, 20⟩, ⟨4, 20⟩, ⟨3, 20⟩, ⟨2, 20⟩, ⟨1, 20⟩, ⟨0, 20⟩]

/-- Chunk 3 of wheel210Init (entries 90..119); the full table is their concatenation. -/
def wheel210InitPart3 : List WheelInit :=
  [⟨7, 21⟩, ⟨6, 21⟩, ⟨5, 21⟩, ⟨4, 21⟩, ⟨3, 21⟩, ⟨2, 21⟩,
   ⟨1, 21⟩, ⟨0, 21⟩, ⟨3, 22⟩, ⟨2, 22⟩, ⟨1, 22⟩, ⟨0, 22⟩,
   ⟨1, 23⟩, ⟨0, 23⟩, ⟨3, 24⟩, ⟨2, 24⟩, ⟨1, 24⟩, ⟨0, 24⟩,
   ⟨1, 25⟩, ⟨0, 25⟩, ⟨3, 26⟩, ⟨2, 26⟩, ⟨1, 26⟩, ⟨0, 26⟩,
   ⟨7, 27⟩, ⟨6, 27⟩, ⟨5, 27⟩, ⟨4, 27⟩, ⟨3, 27⟩, ⟨2, 27⟩]

/-- Chunk 4 of wheel210Init (entries 120..149); the full table is their concatenation. -/
def wheel210InitPart4 : List WheelInit :=
  [⟨1, 27⟩, ⟨0, 27⟩, ⟨5, 28⟩, ⟨4, 28⟩, ⟨3, 28⟩, ⟨2, 28⟩,
   ⟨1, 28⟩, ⟨0, 28⟩, ⟨3, 29⟩, ⟨2, 29⟩, ⟨1, 29⟩, ⟨0, 29⟩,
   ⟨5, 30⟩, ⟨4, 30⟩, ⟨3, 30⟩, ⟨2, 30⟩, ⟨1, 30⟩, ⟨0, 30⟩,
   ⟨1, 31⟩, ⟨0, 31⟩, ⟨3, 32⟩, ⟨2, 32⟩, ⟨1, 32⟩, ⟨0, 32⟩,
   ⟨5, 33⟩, ⟨4, 33⟩, ⟨3, 33⟩, ⟨2, 33⟩, ⟨1, 33⟩, ⟨0, 33⟩]

/-- Chunk 5 of wheel210Init (entries 150..179); the full table is their concatenation. -/
def wheel210InitPart5 : List WheelInit :=
  [⟨1, 34⟩, ⟨0, 34⟩, ⟨5, 35⟩, ⟨4, 35⟩, ⟨3, 35⟩, ⟨2, 35⟩,
   ⟨1, 35⟩, ⟨0, 35⟩, ⟨5, 36⟩, ⟨4, 36⟩, ⟨3, 36⟩, ⟨2, 36⟩,
   ⟨1, 36⟩, ⟨0, 36⟩, ⟨3, 37⟩, ⟨2, 37⟩, ⟨1, 37⟩, ⟨0, 37⟩,
   ⟨1, 38⟩, ⟨0, 38⟩, ⟨3, 39⟩, ⟨2, 39⟩, ⟨1, 39⟩, ⟨0, 39⟩,
   ⟨5, 40⟩, ⟨4, 40⟩, ⟨3, 40⟩, ⟨2, 40⟩, ⟨1, 40⟩, ⟨0, 40⟩]

/-- Chunk 6 of wheel210Init (entries 180..209); the full table is their concatenation. -/
def wheel210InitPart6 : List WheelInit :=
  [⟨1, 41⟩, ⟨0, 41⟩, ⟨5, 42⟩, ⟨4, 42⟩, ⟨3, 42⟩, ⟨2, 42⟩,
   ⟨1, 42⟩, ⟨0, 42⟩, ⟨3, 43⟩, ⟨2, 43⟩, ⟨1, 43⟩, ⟨0, 43⟩,
   ⟨1, 44⟩, ⟨0, 44⟩, ⟨3, 45⟩, ⟨2, 45⟩, ⟨1, 45⟩, ⟨0, 45⟩,
   ⟨1, 46⟩, ⟨0, 46⟩, ⟨9, 47⟩, ⟨8, 47⟩, ⟨7, 47⟩, ⟨6, 47⟩,
   ⟨5, 47⟩, ⟨4, 47⟩, ⟨3, 47⟩, ⟨2, 47⟩, ⟨1, 47⟩, ⟨0, 47⟩]

/-- Transcribed from src/src/LookupTables.cpp: wheel210Init, one entry per
residue 0..209, assembled from the seven chunks above. -/
def wheel210Init : List WheelInit :=
  wheel210InitPart0 ++ wheel210InitPart1 ++ wheel210InitPart2 ++
  wheel210InitPart3 ++ wheel210InitPart4 ++ wheel210InitPart5 ++ wheel210InitPart6

/-- Modelled from the spec: BIT0..BIT7 are declared in bits.hpp, which is
not under src/; following the spec's "bitmaskToClear" they are the byte
masks with exactly one bit cleared, used as AND masks when crossing off a
multiple. -/
def BIT0 : Nat := 0xfe

/-- Byte mask clearing bit 1 (see BIT0). -/
def BIT1 : Nat := 0xfd

/-- Byte mask clearing bit 2 (see BIT0). -/
def BIT2 : Nat := 0xfb

/-- Byte mask clearing bit 3 (see BIT0). -/
def BIT3 : Nat := 0xf7

/-- Byte mask clearing bit 4 (see BIT0). -/
def BIT4 : Nat := 0xef

/-- Byte mask clearing bit 5 (see BIT0). -/
def BIT5 : Nat := 0xdf

/-- Byte mask clearing bit 6 (see BIT0). -/
def BIT6 : Nat := 0xbf

/-- Byte mask clearing bit 7 (see BIT0). -/
def BIT7 : Nat := 0x7f

/-- WheelElement record, as declared in Wheel.hpp: the byte mask clearing
the current multiple's bit, the factor (scaled by the prime) to advance to
the next multiple, the byte-index correction, and the next wheel index. -/
structure WheelElement where
  unsetBit : Nat
  nextMultipleFactor : Nat
  correct : Nat
  next : Nat
deriving Repr, DecidableEq

/-- Transcribed from src/src/LookupTables.cpp: the 8x8 modulo-30 wheel
transition table. -/
def wheel30 : List WheelElement :=
  [⟨BIT0, 6, 1, 1⟩, ⟨BIT4, 4, 1, 2⟩, ⟨BIT3, 2, 0, 3⟩, ⟨BIT7, 4, 1, 4⟩,
   ⟨BIT6, 2, 1, 5⟩, ⟨BIT2, 4, 1, 6⟩, ⟨BIT1, 6, 1, 7⟩, ⟨BIT5, 2, 1, 0⟩,
   ⟨BIT1, 6, 2, 9⟩, ⟨BIT3, 4, 1, 10⟩, ⟨BIT7, 2, 1, 11⟩, ⟨BIT5, 4, 2, 12⟩,
   ⟨BIT0, 2, 0, 13⟩, ⟨BIT6, 4, 2, 14⟩, ⟨BIT2, 6, 2, 15⟩, ⟨BIT4, 2, 1, 8⟩,
   ⟨BIT2, 6, 2, 17⟩, ⟨BIT7, 4, 2, 18⟩, ⟨BIT5, 2, 1, 19⟩, ⟨BIT4, 4, 2, 20⟩,
   ⟨BIT1, 2, 1, 21⟩, ⟨BIT0, 4, 1, 22⟩, ⟨BIT6, 6, 3, 23⟩, ⟨BIT3, 2, 1, 16⟩,
   ⟨BIT3, 6, 3, 25⟩, ⟨BIT6, 4, 3, 26⟩, ⟨BIT0, 2, 1, 27⟩, ⟨BIT1, 4, 2, 28⟩,
   ⟨BIT4, 2, 1, 29⟩, ⟨BIT5, 4, 2, 30⟩, ⟨BIT7, 6, 4, 31⟩, ⟨BIT2, 2, 1, 24⟩,
   ⟨BIT4, 6, 4, 33⟩, ⟨BIT2, 4, 2, 34⟩, ⟨BIT6, 2, 2, 35⟩, ⟨BIT0, 4, 2, 36⟩,
   ⟨BIT5, 2, 1, 37⟩, ⟨BIT7, 4, 3, 38⟩, ⟨BIT3, 6, 4, 39⟩, ⟨BIT1, 2, 1, 32⟩,
   ⟨BIT5, 6, 5, 41⟩, ⟨BIT1, 4, 3, 42⟩, ⟨BIT2, 2, 1, 43⟩, ⟨BIT6, 4, 3, 44⟩,
   ⟨BIT7, 2, 2, 45⟩, ⟨BIT3, 4, 3, 46⟩, ⟨BIT4, 6, 5, 47⟩, ⟨BIT0, 2, 1, 40⟩,
   ⟨BIT6, 6, 6, 49⟩, ⟨BIT5, 4, 4, 50⟩, ⟨BIT4, 2, 2, 51⟩, ⟨BIT3, 4, 4, 52⟩,
   ⟨BIT2, 2, 2, 53⟩, ⟨BIT1, 4, 4, 54⟩, ⟨BIT0, 6, 5, 55⟩, ⟨BIT7, 2, 2, 48⟩,
   ⟨BIT7, 6, 1, 57⟩, ⟨BIT0, 4, 0, 58⟩, ⟨BIT1, 2, 0, 59⟩, ⟨BIT2, 4, 0, 60⟩,
   ⟨BIT3, 2, 0, 61⟩, ⟨BIT4, 4, 0, 62⟩, ⟨BIT5, 6, 0, 63⟩, ⟨BIT6, 2, 0, 56⟩]

/-- The sorted list of residues coprime to 30, as rearranged by primesieve
to { 7, 11, 13, 17, 19, 23, 29, 31 } (comment in LookupTables.cpp). -/
def byteOffsets : List Nat := [7, 11, 13, 17, 19, 23, 29, 31]


/-- The residues coprime to a modulus m, listed in increasing order. -/
def coprimeResidues (m : Nat) : List Nat :=
  (List.range m).filter (fun r => Nat.gcd r m == 1)

/-- The wheel index assigned to a wheel-eligible residue: its rank in the
increasing enumeration of the residues coprime to the modulus. -/
def wheelIndexOfResidue (m r : Nat) : Nat := (coprimeResidues m).indexOf r

/-- Modelled from the spec: the De Bruijn bit-scan of forward.hpp (not
under src/) computes the table index of the lowest set bit of a 64-bit
word by the multiplicative constant-folding technique, as
((x XOR (x - 1)) * deBruijnConstant) mod 2^64 >> 58. -/
def deBruijnIndex (x : Nat) : Nat :=
  ((x ^^^ (x - 1)) * 0x3F08A4C6ACB9DBD) % 2 ^ 64 / 2 ^ 58

/-- Default wheel element, used only to totalize list indexing. -/
def defaultWheelElement : WheelElement := ⟨0, 0, 0, 0⟩

/-- The successor wheel index of the modulo-30 wheel: the next field of
the wheel30 entry at the given wheel index. -/
def wheel30Next (i : Nat) : Nat := (wheel30.getD i defaultWheelElement).next

/-- The list of wheel indices visited when the wheel30 transition is
applied the given number of times from a starting index: the start, each
intermediate state, and the final state. -/
def wheel30States : Nat → Nat → List Nat
  | 0, i => [i]
  | s + 1, i => i :: wheel30States s (wheel30Next i)

/-- The residue orbit of the modulo-30 wheel: starting from a wheel index
and a current value, each step adds the entry's nextMultipleFactor to the
value and moves to the entry's next wheel index; the list collects the
start value, each intermediate value, and the final value. -/
def wheel30Orbit : Nat → Nat → Nat → List Nat
  | 0, _, v => [v]
  | s + 1, i, v =>
      v :: wheel30Orbit s (wheel30Next i)
        (v + (wheel30.getD i defaultWheelElement).nextMultipleFactor)

/-- Modelled from the spec: count trailing zeros with the CPU convention,
noted in LookupTables.cpp, that a zero input yields the operand width
64. -/
def ctz64 (x : Nat) : Nat :=
  if h : x = 0 then 64
  else if x % 2 = 1 then 0
  else ctz64 (x / 2) + 1
termination_by x
decreasing_by exact Nat.div_lt_self (Nat.pos_of_ne_zero h) (by omega)

/-- Modelled from the spec: the inner loop of GENERATE_PRIMES (defs.h, not
under src/): while the 64-bit word is nonzero, emit
lowerBound + bitValues[CTZ(word)] and clear the lowest set bit. -/
def extractWord (low : Nat) (x : Nat) : List Nat :=
  if h : x = 0 then []
  else (low + bitValues.getD (ctz64 x) 0) :: extractWord low (x - 2 ^ ctz64 x)
termination_by x
decreasing_by exact Nat.sub_lt (Nat.pos_of_ne_zero h) (Nat.two_pow_pos _)

/-- Modelled from the spec: GENERATE_PRIMES walks the segment's 64-bit
words in order; the word at index i spans an interval of size 240 starting
at lowerBound + 240 * i. -/
def extractSegment (low : Nat) : List Nat → List Nat
  | [] => []
  | x :: ws => extractWord low x ++ extractSegment (low + 240) ws

/-- Modelled from the spec together with line 63 of
src/src/soe/PrimeNumberGenerator.cpp: PrimeNumberGenerator::generate runs
GENERATE_PRIMES with the callback primeNumberFinder_.sieve, so every
extracted prime is fed to the outer finder's sieve operation; nothing is
handed to the external consumer, recorded here as the second component of
the result. -/
def PrimeNumberGenerator.generate {α : Type} (finderSieve : Nat → α → α)
    (low : Nat) (words : List Nat) (st : α) : α × List Nat :=
  ((extractSegment low words).foldl (fun s p => finderSieve p s) st, [])

/-- The outer finder's parameters visible to the generator, accessed in
src/src/soe/PrimeNumberGenerator.cpp through getPreSieveLimit and
getStopNumber. -/
structure PrimeNumberFinder where
  preSieveLimit : Nat
  stopNumber : Nat
deriving Repr, DecidableEq

/-- From line 46 of src/src/soe/PrimeNumberGenerator.cpp: the nested
generator's start number is finder.getPreSieveLimit() + 1. -/
def generatorStartNumber (f : PrimeNumberFinder) : Nat := f.preSieveLimit + 1

/-- From line 47 of src/src/soe/PrimeNumberGenerator.cpp: the nested
generator's stop number is isqrt(finder.getStopNumber()); isqrt (imath.h,
not under src/) is modelled from the spec as the integer square root. -/
def generatorStopNumber (f : PrimeNumberFinder) : Nat := Nat.sqrt f.stopNumber

/-- The largest value of the 32-bit unsigned integer width used by the
generator variant. -/
def UINT32_MAX : Nat := 2 ^ 32 - 1

/-- Modelled from the spec: nextHighestPowerOf2 (bithacks.h, not under
src/) rounds up to the smallest power of two that is at least n. -/
def nextHighestPowerOf2 (n : Nat) : Nat := 2 ^ Nat.clog 2 n

/-- Modelled from the spec: the power-of-two test applied to the sieve
size at construction; n is a power of two when it equals 2 ^ k for some
k, and any such exponent is at most n. -/
def isPowerOf2 (n : Nat) : Bool := (List.range (n + 1)).any (fun k => n == 2 ^ k)

/-- Configuration held by a successfully constructed SieveOfEratosthenes:
exactly the four construction parameters. -/
structure SieveOfEratosthenes where
  startNumber : Nat
  stopNumber : Nat
  sieveSize : Nat
  preSieveLimit : Nat
deriving Repr, DecidableEq

/-- Modelled from the spec: the SieveOfEratosthenes constructor (not under
src/) fails fast on a non-power-of-two sieve size, a stop bound exceeding
the supported integer width, or start > stop, and otherwise stores its
parameters unchanged - never clamped or adjusted. -/
def soeConstruct (startN stopN sieveSz preSieve intWidthMax : Nat) :
    Option SieveOfEratosthenes :=
  if !isPowerOf2 sieveSz then none
  else if intWidthMax < stopN then none
  else if stopN < startN then none
  else some ⟨startN, stopN, sieveSz, preSieve⟩

/-- Modelled from the spec together with lines 44-52 of
src/src/soe/PrimeNumberGenerator.cpp: the nested generator is constructed
as a SieveOfEratosthenes over [preSieveLimit + 1, isqrt(stop)] with sieve
size nextHighestPowerOf2(sieveKiB * 1024); the supported width is the
32-bit one, enforcing the assert getStopNumber() <= UINT32_MAX of line 51.
sieveKiB and genPreSieve stand for the compile-time constants
defs::PRIMENUMBERGENERATOR_SIEVESIZE and
defs::PRIMENUMBERGENERATOR_PRESIEVE_LIMIT (defs.h, not under src/). -/
def generatorConstruct (f : PrimeNumberFinder) (sieveKiB genPreSieve : Nat) :
    Option SieveOfEratosthenes :=
  soeConstruct (generatorStartNumber f) (generatorStopNumber f)
    (nextHighestPowerOf2 (sieveKiB * 1024)) genPreSieve UINT32_MAX

/-- The 64 values represented by the 64 bits of the 8-byte sieve word with
index w, an interval of size 240 starting at 240 * w (comment at the top
of src/src/LookupTables.cpp). -/
def blockValues (w : Nat) : List Nat :=
  (bitValues.take 64).map (fun v => 240 * w + v)

/-- The candidate values represented by the first w sieve words, in
increasing order: the concatenation of their blockValues. -/
def segmentCandidates : Nat → List Nat
  | 0 => []
  | w + 1 => segmentCandidates w ++ blockValues w

/-- Modelled from the spec: a candidate is crossed off when some seed
prime p with p * p <= n divides it - per-prime crossing off starts at the
prime's square. -/
def crossedOff (seeds : List Nat) (n : Nat) : Bool :=
  seeds.any (fun p => decide (p * p ≤ n) && n % p == 0)

/-- Trial division primality test, the reference the spec compares the
emitted sequence against: n is prime when 2 <= n and no d with
2 <= d < n divides n. -/
def trialDivisionPrime (n : Nat) : Bool :=
  decide (2 ≤ n) && (List.Ico 2 n).all (fun d => !(n % d == 0))

/-- The primes in [a, b] as computed by trial division, in increasing
order. -/
def trialDivisionPrimes (a b : Nat) : List Nat :=
  (List.Ico a (b + 1)).filter trialDivisionPrime

/-- The fixed primes 2, 3 and 5 excluded by the modulo-30 wheel and
emitted by a separate fixed-prime path. -/
def smallWheelPrimes : List Nat := [2, 3, 5]

/-- Modelled from the spec: the segment generator over [a, b]. Seed primes
are produced by a nested instance over [0, isqrt(b)] (bootstrap
recursion); the fixed-prime path emits 2, 3, 5 when they fall in [a, b];
the wheel path scans enough 240-wide sieve words to cover b, keeps the
candidates in [a, b] that no seed prime p with p * p <= n divides, and
emits everything in increasing order. -/
def generatorEmit (a b : Nat) : List Nat :=
  if _hb : b < 2 then []
  else
    let seeds := generatorEmit 0 (Nat.sqrt b)
    smallWheelPrimes.filter (fun p => decide (a ≤ p) && decide (p ≤ b)) ++
    (segmentCandidates (b / 240 + 1)).filter
      (fun n => decide (a ≤ n) && decide (n ≤ b) && !crossedOff seeds n)
termination_by b
decreasing_by exact Nat.sqrt_lt_self (by omega)


section Helpers

/-- Reducing the left argument of gcd modulo the right argument. -/
theorem gcd_mod_left (a m : Nat) : Nat.gcd a m = Nat.gcd (a % m) m := by
  rw [Nat.gcd_comm, Nat.gcd_rec]

/-- Xor of an even number with an odd number, one binary digit at a
time. -/
theorem xor_even_odd (a b : Nat) : (2 * a) ^^^ (2 * b + 1) = 2 * (a ^^^ b) + 1 := by
  have h := Nat.xor_bit false a true b
  simpa [Nat.bit] using h

/-- Xor of an odd number with its predecessor. -/
theorem xor_odd_pred (a : Nat) : (2 * a + 1) ^^^ (2 * a) = 1 := by
  have h := Nat.xor_bit true a false a
  simpa [Nat.bit] using h

/-- The lowest set bit of a nonzero number really is a lower bound: the
power of two at the count-trailing-zeros position is at most the
number. -/
theorem two_pow_ctz64_le (x : Nat) (hx : x ≠ 0) : 2 ^ ctz64 x ≤ x := by
  rw [ctz64]
  simp only [hx, dite_false]
  by_cases hodd : x % 2 = 1
  · simp only [hodd, if_true, pow_zero]
    omega
  · have hx2 : x / 2 ≠ 0 := by omega
    have ih := two_pow_ctz64_le (x / 2) hx2
    simp only [hodd, if_false, pow_succ]
    omega
termination_by x
decreasing_by exact Nat.div_lt_self (Nat.pos_of_ne_zero hx) (by omega)

/-- For a nonzero 64-bit word the count-trailing-zeros result is a real
bit index, below 64. -/
theorem ctz64_lt_64 (x : Nat) (hx : x ≠ 0) (hw : x < 2 ^ 64) : ctz64 x < 64 := by
  have h := two_pow_ctz64_le x hx
  have : (2 : Nat) ^ ctz64 x < 2 ^ 64 := lt_of_le_of_lt h hw
  exact (Nat.pow_lt_pow_iff_right (by omega)).mp this

/-- Xor of a nonzero number with its predecessor yields the mask of the
bits up to and including its lowest set bit. -/
theorem xor_pred_eq_mask (x : Nat) (hx : x ≠ 0) :
    x ^^^ (x - 1) = 2 ^ (ctz64 x + 1) - 1 := by
  by_cases hodd : x % 2 = 1
  · obtain ⟨a, rfl⟩ : ∃ a, x = 2 * a + 1 := ⟨x / 2, by omega⟩
    have hc : ctz64 (2 * a + 1) = 0 := by
      rw [ctz64]; simp [hx, Nat.mul_add_mod]
    have hpe : 2 * a + 1 - 1 = 2 * a := by omega
    rw [hc, hpe, xor_odd_pred]
    norm_num
  · have hx2 : x / 2 ≠ 0 := by omega
    obtain ⟨a, rfl⟩ : ∃ a, x = 2 * a := ⟨x / 2, by omega⟩
    have ha : 2 * a / 2 = a := by omega
    have ha0 : a ≠ 0 := by omega
    have ih := xor_pred_eq_mask a ha0
    have hc : ctz64 (2 * a) = ctz64 a + 1 := by
      conv_lhs => rw [ctz64]
      simp [hx, hodd, ha]
    have hpe : 2 * a - 1 = 2 * (a - 1) + 1 := by omega
    have hstep : 2 * a ^^^ (2 * a - 1) = 2 * (a ^^^ (a - 1)) + 1 := by
      rw [hpe]; exact xor_even_odd a (a - 1)
    have hpos : (1 : Nat) ≤ 2 ^ (ctz64 a + 1) := Nat.one_le_two_pow
    rw [hstep, ih, hc, pow_succ]
    omega
termination_by x
decreasing_by omega

/-- Every real table entry is at least 7, so every value the extraction
loop emits for a 64-bit word is at least lowerBound + 7. -/
theorem extractWord_lower_bound (low x : Nat) (hw : x < 2 ^ 64) :
    ∀ v ∈ extractWord low x, low + 7 ≤ v := by
  intro v hv
  rw [extractWord] at hv
  by_cases hx : x = 0
  · simp [hx] at hv
  · simp only [hx, dite_false, List.mem_cons] at hv
    rcases hv with hv | hv
    · have hi : ctz64 x < 64 := ctz64_lt_64 x hx hw
      have h7 : ∀ i, i < 64 → 7 ≤ bitValues.getD i 0 := by decide
      have := h7 (ctz64 x) hi
      omega
    · have hlt : x - 2 ^ ctz64 x < 2 ^ 64 := lt_of_le_of_lt (Nat.sub_le _ _) hw
      exact extractWord_lower_bound low (x - 2 ^ ctz64 x) hlt v hv
termination_by x
decreasing_by exact Nat.sub_lt (Nat.pos_of_ne_zero hx) (Nat.two_pow_pos _)

end Helpers


/-- C2: for every index i in 0..63, bitValues[i] equals 30 * (i div 8)
plus the (i mod 8)-th element of (7, 11, 13, 17, 19, 23, 29, 31);
equivalently, bitValues[0..63] lists in strictly increasing order exactly
the integers n with 7 <= n <= 241 that are coprime to 30 - the residue
values represented by the 64 bits of an 8-byte sieve word spanning 240
consecutive integers. -/
theorem bitValues_residue_decomposition :
    (∀ i, i < 64 →
      bitValues.getD i 0 = 30 * (i / 8) + byteOffsets.getD (i % 8) 0) ∧
    bitValues.take 64 = (List.Ico 7 242).filter (fun n => Nat.gcd n 30 == 1) ∧
    List.Sorted (· < ·) (bitValues.take 64) := by
  refine ⟨by decide, by decide, by decide⟩

/-- Witness for C2 at the concrete index 9: bitValues[9] = 30 * 1 + 11. -/
theorem bitValues_residue_decomposition_witness :
    bitValues.getD 9 0 = 30 * (9 / 8) + byteOffsets.getD (9 % 8) 0 :=
  bitValues_residue_decomposition.1 9 (by decide)

/-- C3 as stated is false: one full cycle of the modulo-30 wheel is not
phi(30) / 2 = 4 steps - after 4 transitions from wheel index 0 the walk
sits at index 4, not back at the start - and the wheel index 7 that
wheel30Init assigns to the residue class of 29 lies outside
0..(phi(30) / 2 - 1). -/
theorem wheel30_half_totient_cycle_false :
    (wheel30States (Nat.totient 30 / 2) 0).getLast? = some 4 ∧
    ¬ (wheel30States (Nat.totient 30 / 2) 0).getLast? = some 0 ∧
    (wheel30Init.getD 29 ⟨0, 0⟩).wheelIndex = 7 ∧
    ¬ (wheel30Init.getD 29 ⟨0, 0⟩).wheelIndex < Nat.totient 30 / 2 := by
  refine ⟨by decide, by decide, by decide, by decide⟩

set_option maxRecDepth 8000 in
/-- C3 (amended): one full wheel cycle takes phi(M) transitions, not
phi(M) / 2. Starting from wheel index 0 (and bit position 0, the BIT0
entry), iterating the wheel30 transition for phi(30) = 8 steps visits the
8 distinct wheel indices 0..7 exactly once and returns to the starting
state; accumulating nextMultipleFactor from value 1 reproduces the
residues coprime to 30 exactly once, in strictly increasing order, and
comes back to the starting residue after one wheel cycle of length 30.
Correspondingly, every residue class coprime to M carries a wheel index
in 0..(phi(M) - 1), for M = 30 and M = 210 alike. -/
theorem wheel30_full_cycle :
    wheel30States (Nat.totient 30) 0 = [0, 1, 2, 3, 4, 5, 6, 7, 0] ∧
    (wheel30States (Nat.totient 30) 0).dropLast.Nodup ∧
    (wheel30States (Nat.totient 30) 0).getLast? = some 0 ∧
    wheel30Orbit (Nat.totient 30) 0 1 = [1, 7, 11, 13, 17, 19, 23, 29, 31] ∧
    (wheel30Orbit (Nat.totient 30) 0 1).dropLast = coprimeResidues 30 ∧
    (wheel30Orbit (Nat.totient 30) 0 1).getLast? = some (1 + 30) ∧
    List.Sorted (· < ·) (wheel30Orbit (Nat.totient 30) 0 1) ∧
    (∀ e ∈ wheel30Init, e.wheelIndex < Nat.totient 30) ∧
    (∀ e ∈ wheel210Init, e.wheelIndex < Nat.totient 210) := by
  refine ⟨by decide, by decide, by decide, by decide, by decide, by decide,
    by decide, by decide, by decide⟩

/-- Witness for C3 (amended) at a concrete table entry: the wheel index
wheel30Init assigns to residue 29 is below phi(30). -/
theorem wheel30_full_cycle_witness :
    (WheelInit.mk 0 7).wheelIndex < Nat.totient 30 :=
  wheel30_full_cycle.2.2.2.2.2.2.2.1 ⟨0, 7⟩ (by decide)

set_option maxRecDepth 8000 in
/-- C4: for M = 30 and M = 210 and every residue r in 0..M-1, the
WheelInit entry at r stores the distance to the smallest integer at least
r that is coprime to M (0 when r itself is coprime), together with the
wheel index of that integer's residue class (its rank among the residues
coprime to M); consequently adding the stored offset to any starting
value lands on a wheel-eligible candidate. -/
theorem wheelInit_tables_correct :
    (∀ r, r < 30 →
      r + (wheel30Init.getD r ⟨0, 0⟩).nextMultipleFactor < 30 ∧
      Nat.gcd (r + (wheel30Init.getD r ⟨0, 0⟩).nextMultipleFactor) 30 = 1 ∧
      (∀ d, d < (wheel30Init.getD r ⟨0, 0⟩).nextMultipleFactor →
        Nat.gcd (r + d) 30 ≠ 1) ∧
      (wheel30Init.getD r ⟨0, 0⟩).wheelIndex =
        wheelIndexOfResidue 30 (r + (wheel30Init.getD r ⟨0, 0⟩).nextMultipleFactor)) ∧
    (∀ r, r < 210 →
      r + (wheel210Init.getD r ⟨0, 0⟩).nextMultipleFactor < 210 ∧
      Nat.gcd (r + (wheel210Init.getD r ⟨0, 0⟩).nextMultipleFactor) 210 = 1 ∧
      (∀ d, d < (wheel210Init.getD r ⟨0, 0⟩).nextMultipleFactor →
        Nat.gcd (r + d) 210 ≠ 1) ∧
      (wheel210Init.getD r ⟨0, 0⟩).wheelIndex =
        wheelIndexOfResidue 210 (r + (wheel210Init.getD r ⟨0, 0⟩).nextMultipleFactor)) ∧
    (∀ v, Nat.gcd
      (v + (wheel30Init.getD (v % 30) ⟨0, 0⟩).nextMultipleFactor) 30 = 1) ∧
    (∀ v, Nat.gcd
      (v + (wheel210Init.getD (v % 210) ⟨0, 0⟩).nextMultipleFactor) 210 = 1) := by
  have h30 : ∀ r, r < 30 →
      r + (wheel30Init.getD r ⟨0, 0⟩).nextMultipleFactor < 30 ∧
      Nat.gcd (r + (wheel30Init.getD r ⟨0, 0⟩).nextMultipleFactor) 30 = 1 ∧
      (∀ d, d < (wheel30Init.getD r ⟨0, 0⟩).nextMultipleFactor →
        Nat.gcd (r + d) 30 ≠ 1) ∧
      (wheel30Init.getD r ⟨0, 0⟩).wheelIndex =
        wheelIndexOfResidue 30 (r + (wheel30Init.getD r ⟨0, 0⟩).nextMultipleFactor) := by
    decide
  have h210 : ∀ r, r < 210 →
      r + (wheel210Init.getD r ⟨0, 0⟩).nextMultipleFactor < 210 ∧
      Nat.gcd (r + (wheel210Init.getD r ⟨0, 0⟩).nextMultipleFactor) 210 = 1 ∧
      (∀ d, d < (wheel210Init.getD r ⟨0, 0⟩).nextMultipleFactor →
        Nat.gcd (r + d) 210 ≠ 1) ∧
      (wheel210Init.getD r ⟨0, 0⟩).wheelIndex =
        wheelIndexOfResidue 210 (r + (wheel210Init.getD r ⟨0, 0⟩).nextMultipleFactor) := by
    decide
  refine ⟨h30, h210, fun v => ?_, fun v => ?_⟩
  · have hr := h30 (v % 30) (Nat.mod_lt _ (by omega))
    rw [gcd_mod_left]
    have hv : (v + (wheel30Init.getD (v % 30) ⟨0, 0⟩).nextMultipleFactor) % 30 =
        v % 30 + (wheel30Init.getD (v % 30) ⟨0, 0⟩).nextMultipleFactor := by
      have h1 := hr.1
      omega
    rw [hv]
    exact hr.2.1
  · have hr := h210 (v % 210) (Nat.mod_lt _ (by omega))
    rw [gcd_mod_left]
    have hv : (v + (wheel210Init.getD (v % 210) ⟨0, 0⟩).nextMultipleFactor) % 210 =
        v % 210 + (wheel210Init.getD (v % 210) ⟨0, 0⟩).nextMultipleFactor := by
      have h1 := hr.1
      omega
    rw [hv]
    exact hr.2.1

/-- Witness for C4 at the concrete residue 8 modulo 30: the entry is
offset 3 (8, 9, 10 are not coprime to 30, 11 is), wheel index 2. -/
theorem wheelInit_tables_correct_witness :
    Nat.gcd (8 + (wheel30Init.getD 8 ⟨0, 0⟩).nextMultipleFactor) 30 = 1 :=
  (wheelInit_tables_correct.1 8 (by decide)).2.1

/-- C5 as stated is false: the two tables do not hold the same value at
the same index - at index 1, bitValues holds 11 while bruijnBitValues
holds 47 (the De Bruijn table is arranged for its multiplicative index
computation, not for the CTZ index). -/
theorem bitValues_bruijn_entrywise_ne :
    bitValues.getD 1 0 = 11 ∧ bruijnBitValues.getD 1 0 = 47 ∧
    bitValues.getD 1 0 ≠ bruijnBitValues.getD 1 0 := by
  refine ⟨by decide, by decide, by decide⟩

/-- C5 (amended): the tables are not entrywise equal; the consistency
that actually holds, and which makes the De Bruijn fallback semantically
identical to the hardware bit-scan path, is that for every 64-bit word x
with some bit set, looking bitValues up at the CTZ index equals looking
bruijnBitValues up at the De Bruijn multiplication index of x. -/
theorem bruijn_fallback_equivalent (x : Nat) (hx : x ≠ 0) (hw : x < 2 ^ 64) :
    bruijnBitValues.getD (deBruijnIndex x) 0 = bitValues.getD (ctz64 x) 0 := by
  have hmask := xor_pred_eq_mask x hx
  have hlt : ctz64 x < 64 := ctz64_lt_64 x hx hw
  have hkey : ∀ i, i < 64 →
      bruijnBitValues.getD ((2 ^ (i + 1) - 1) * 0x3F08A4C6ACB9DBD % 2 ^ 64 / 2 ^ 58) 0 =
      bitValues.getD i 0 := by decide
  rw [deBruijnIndex, hmask]
  exact hkey (ctz64 x) hlt

/-- Witness for C5 (amended) at the concrete word x = 6 (lowest set bit
1): the De Bruijn path and the CTZ path agree. -/
theorem bruijn_fallback_equivalent_witness :
    bruijnBitValues.getD (deBruijnIndex 6) 0 = bitValues.getD (ctz64 6) 0 :=
  bruijn_fallback_equivalent 6 (by decide) (by decide)

/-- C6: the 64 entries of bruijnBitValues are a rearrangement of
bitValues[0..63]: the two tables are equal as multisets, each value
occurring exactly once in each. -/
theorem bruijn_is_permutation_of_bitValues :
    List.Perm (bitValues.take 64) bruijnBitValues ∧
    (bitValues.take 64).Nodup ∧ bruijnBitValues.Nodup := by
  refine ⟨by decide, by decide, by decide⟩

/-- C7: bitValues has 65 entries and bitValues[64] = 0: every bit-scan
result in 0..64 - including the sentinel 64 returned for an all-zero
word - indexes the table in bounds; the sentinel row holds 0, which no
real row holds; and the extraction loop never emits it as a prime, since
every emitted value is at least lowerBound + 7. -/
theorem bitValues_sentinel_safety :
    bitValues.length = 65 ∧
    bitValues.getD 64 0 = 0 ∧
    (∀ i, i < 64 → bitValues.getD i 0 ≠ 0) ∧
    ctz64 0 = 64 ∧
    (∀ x, x < 2 ^ 64 → ctz64 x < bitValues.length) ∧
    (∀ low x, x < 2 ^ 64 → ∀ v ∈ extractWord low x, low + 7 ≤ v) := by
  refine ⟨by decide, by decide, by decide, by rw [ctz64]; simp, ?_, ?_⟩
  · intro x hw
    have hlen : bitValues.length = 65 := by decide
    by_cases hx : x = 0
    · subst hx
      have h0 : ctz64 0 = 64 := by rw [ctz64]; simp
      omega
    · have := ctz64_lt_64 x hx hw
      omega
  · exact extractWord_lower_bound

/-- Witness for C7 with the concrete word 2^63 (highest representable
bit): its CTZ result indexes bitValues in bounds. -/
theorem bitValues_sentinel_safety_witness :
    ctz64 (2 ^ 63) < bitValues.length :=
  bitValues_sentinel_safety.2.2.2.2.1 (2 ^ 63) (by norm_num)


/-- Accumulating elements one by one at the end of a list reproduces the
input list after the initial accumulator. -/
theorem foldl_snoc_eq (l init : List Nat) :
    l.foldl (fun s p => s ++ [p]) init = init ++ l := by
  induction l generalizing init with
  | nil => simp
  | cons a l ih => simp [List.foldl_cons, ih]

/-- Every power of two passes the isPowerOf2 test. -/
theorem isPowerOf2_two_pow (k : Nat) : isPowerOf2 (2 ^ k) = true := by
  rw [isPowerOf2, List.any_eq_true]
  refine ⟨k, List.mem_range.mpr ?_, by simp⟩
  have := Nat.lt_two_pow k
  omega

/-- C8 as stated is false: the nested generator's sieving range does not
start at 0 - by line 46 of src/src/soe/PrimeNumberGenerator.cpp it starts
at finder.getPreSieveLimit() + 1. For the concrete finder with pre-sieve
limit 19 and stop number 10^9 the nested range is [20, 31622], not
[0, 31622]. -/
theorem generator_range_start_not_zero :
    generatorStartNumber ⟨19, 1000000000⟩ = 20 ∧
    generatorStartNumber ⟨19, 1000000000⟩ ≠ 0 ∧
    generatorStopNumber ⟨19, 1000000000⟩ = 31622 := by
  refine ⟨rfl, by decide, ?_⟩
  show Nat.sqrt 1000000000 = 31622
  exact (Nat.eq_sqrt.mpr (by norm_num)).symm

/-- C8 (amended): the nested PrimeNumberGenerator sieves
[preSieveLimit + 1, isqrt(stop)]: its start number is the outer finder's
pre-sieve limit plus one - positive, never 0; the primes not exceeding the
pre-sieve limit are handled by the pre-sieved pattern instead - and its
stop number is the integer square root of the outer finder's stop number,
so together the seed primes crossing off the outer range are exactly the
primes up to sqrt(stop). -/
theorem generator_range_presieve_to_sqrt (f : PrimeNumberFinder) :
    generatorStartNumber f = f.preSieveLimit + 1 ∧
    0 < generatorStartNumber f ∧
    generatorStopNumber f * generatorStopNumber f ≤ f.stopNumber ∧
    f.stopNumber <
      (generatorStopNumber f + 1) * (generatorStopNumber f + 1) :=
  ⟨rfl, Nat.succ_pos _, Nat.sqrt_le f.stopNumber, Nat.lt_succ_sqrt f.stopNumber⟩

/-- C9: the nested generator routes every prime it extracts from a
finished segment to the outer finder's sieve operation and hands nothing
to the final external consumer: for any callback the externally emitted
list is empty, and instrumenting the finder's sieve operation to record
its calls shows it receives exactly the extracted primes, in extraction
order. -/
theorem generate_feeds_finder_only :
    (∀ (α : Type) (finderSieve : Nat → α → α) (low : Nat) (words : List Nat)
      (st : α), (PrimeNumberGenerator.generate finderSieve low words st).2 = []) ∧
    (∀ (low : Nat) (words : List Nat),
      (PrimeNumberGenerator.generate (fun p acc => acc ++ [p]) low words []).1 =
        extractSegment low words) := by
  constructor
  · intro α finderSieve low words st
    rfl
  · intro low words
    show (extractSegment low words).foldl (fun s p => s ++ [p]) [] =
      extractSegment low words
    rw [foldl_snoc_eq]
    simp

/-- C10: construction fails fast on configuration violations and never
clamps. soeConstruct succeeds exactly when the sieve size is a power of
two, the stop bound fits the supported integer width, and start <= stop;
on success the stored configuration equals the passed parameters
unchanged; and a successfully constructed 32-bit generator variant always
satisfies the assert of line 51 of src/src/soe/PrimeNumberGenerator.cpp,
stopNumber <= UINT32_MAX, its stop number being isqrt of the finder's
stop and its sieve size a power of two. -/
theorem construction_fails_fast :
    (∀ startN stopN sieveSz preSieve intWidthMax : Nat,
      (∃ s, soeConstruct startN stopN sieveSz preSieve intWidthMax = some s) ↔
        (isPowerOf2 sieveSz = true ∧ stopN ≤ intWidthMax ∧ startN ≤ stopN)) ∧
    (∀ startN stopN sieveSz preSieve intWidthMax s,
      soeConstruct startN stopN sieveSz preSieve intWidthMax = some s →
        s.startNumber = startN ∧ s.stopNumber = stopN ∧
        s.sieveSize = sieveSz ∧ s.preSieveLimit = preSieve) ∧
    (∀ (f : PrimeNumberFinder) (sieveKiB genPreSieve : Nat)
      (s : SieveOfEratosthenes),
      generatorConstruct f sieveKiB genPreSieve = some s →
        s.stopNumber ≤ UINT32_MAX ∧ s.stopNumber = Nat.sqrt f.stopNumber ∧
        s.startNumber = f.preSieveLimit + 1 ∧
        isPowerOf2 s.sieveSize = true) := by
  have hok : ∀ startN stopN sieveSz preSieve intWidthMax s,
      soeConstruct startN stopN sieveSz preSieve intWidthMax = some s →
        s.startNumber = startN ∧ s.stopNumber = stopN ∧
        s.sieveSize = sieveSz ∧ s.preSieveLimit = preSieve ∧
        isPowerOf2 sieveSz = true ∧ stopN ≤ intWidthMax ∧ startN ≤ stopN := by
    intro startN stopN sieveSz preSieve intWidthMax s h
    rw [soeConstruct] at h
    split_ifs at h with h1 h2 h3
    cases h
    refine ⟨rfl, rfl, rfl, rfl, ?_, by omega, by omega⟩
    cases hb : isPowerOf2 sieveSz
    · rw [hb] at h1
      simp at h1
    · rfl
  refine ⟨?_, ?_, ?_⟩
  · intro startN stopN sieveSz preSieve intWidthMax
    constructor
    · rintro ⟨s, hs⟩
      have h := hok startN stopN sieveSz preSieve intWidthMax s hs
      exact ⟨h.2.2.2.2.1, h.2.2.2.2.2⟩
    · rintro ⟨h1, h2, h3⟩
      refine ⟨⟨startN, stopN, sieveSz, preSieve⟩, ?_⟩
      rw [soeConstruct, h1]
      have g2 : ¬ intWidthMax < stopN := by omega
      have g3 : ¬ stopN < startN := by omega
      simp [g2, g3]
  · intro startN stopN sieveSz preSieve intWidthMax s h
    have := hok startN stopN sieveSz preSieve intWidthMax s h
    exact ⟨this.1, this.2.1, this.2.2.1, this.2.2.2.1⟩
  · intro f sieveKiB genPreSieve s h
    have := hok _ _ _ _ _ s h
    refine ⟨?_, this.2.1, this.1, ?_⟩
    · rw [this.2.1]
      exact this.2.2.2.2.2.1
    · rw [this.2.2.1]
      exact isPowerOf2_two_pow _


set_option maxRecDepth 40000 in
/-- Witness for C10 at concrete inputs: a valid configuration
(start 7, stop 10, sieve size 16, width 40) is stored unchanged, and the
generator variant constructed for a finder with stop number 100 satisfies
its assert, stop = sqrt(100) = 10 <= UINT32_MAX. -/
theorem construction_fails_fast_witness :
    ((⟨7, 10, 16, 5⟩ : SieveOfEratosthenes).startNumber = 7 ∧
     (⟨7, 10, 16, 5⟩ : SieveOfEratosthenes).stopNumber = 10 ∧
     (⟨7, 10, 16, 5⟩ : SieveOfEratosthenes).sieveSize = 16 ∧
     (⟨7, 10, 16, 5⟩ : SieveOfEratosthenes).preSieveLimit = 5) ∧
    ((⟨7, 10, 1024, 13⟩ : SieveOfEratosthenes).stopNumber ≤ UINT32_MAX ∧
     (⟨7, 10, 1024, 13⟩ : SieveOfEratosthenes).stopNumber =
       Nat.sqrt (⟨6, 100⟩ : PrimeNumberFinder).stopNumber ∧
     (⟨7, 10, 1024, 13⟩ : SieveOfEratosthenes).startNumber =
       (⟨6, 100⟩ : PrimeNumberFinder).preSieveLimit + 1 ∧
     isPowerOf2 (⟨7, 10, 1024, 13⟩ : SieveOfEratosthenes).sieveSize = true) := by
  constructor
  · exact construction_fails_fast.2.1 7 10 16 5 40 ⟨7, 10, 16, 5⟩ (by decide)
  · refine construction_fails_fast.2.2 ⟨6, 100⟩ 1 13 ⟨7, 10, 1024, 13⟩ ?_
    have h1 : Nat.sqrt 100 = 10 := (Nat.eq_sqrt.mpr (by norm_num)).symm
    have h2 : Nat.clog 2 1024 = 10 := by
      rw [show (1024 : Nat) = 2 ^ 10 by norm_num]
      exact Nat.clog_pow 2 10 (by norm_num)
    show soeConstruct (6 + 1) (Nat.sqrt 100)
      (nextHighestPowerOf2 (1 * 1024)) 13 UINT32_MAX = _
    rw [h1, nextHighestPowerOf2, show 1 * 1024 = 1024 from rfl, h2]
    decide


section SegmentStructure

/-- The Boolean wheel-eligibility test: coprime to 30. -/
def wheelCoprime (n : Nat) : Bool := Nat.gcd n 30 == 1

/-- The first 64 entries of bitValues are the integers in [7, 241]
coprime to 30, in increasing order. -/
theorem bitValues_take_64 :
    bitValues.take 64 = (List.Ico 7 242).filter wheelCoprime := by decide

/-- Wheel eligibility is periodic with period 30, hence with period
240. -/
theorem wheelCoprime_add_240 (w c : Nat) :
    wheelCoprime (240 * w + c) = wheelCoprime c := by
  have h1 : Nat.gcd (240 * w + c) 30 = Nat.gcd c 30 := by
    rw [gcd_mod_left]
    have hm : (240 * w + c) % 30 = c % 30 := by omega
    rw [hm, ← gcd_mod_left]
  rw [wheelCoprime, wheelCoprime, h1]

/-- The w-th sieve word's values are the wheel-eligible integers in
[240w + 7, 240w + 242). -/
theorem blockValues_eq (w : Nat) :
    blockValues w = (List.Ico (240 * w + 7) (240 * w + 242)).filter wheelCoprime := by
  have h1 : (List.Ico (240 * w + 7) (240 * w + 242)) =
      (List.Ico 7 242).map (240 * w + ·) := by
    rw [List.Ico.map_add]
    congr 1 <;> omega
  rw [h1, List.filter_map, blockValues, bitValues_take_64]
  congr 1
  apply List.filter_congr
  intro c _
  exact (wheelCoprime_add_240 w c).symm

/-- No integer in the five-wide gap [240w + 242, 240w + 247) between two
consecutive sieve words is coprime to 30: their residues modulo 30 are
2..6. -/
theorem gap_filter_nil (w : Nat) :
    (List.Ico (240 * w + 242) (240 * w + 247)).filter wheelCoprime = [] := by
  rw [List.filter_eq_nil_iff]
  intro n hn
  have hmem := List.Ico.mem.mp hn
  rw [wheelCoprime, beq_iff_eq, gcd_mod_left]
  have h5 : n % 30 = 2 ∨ n % 30 = 3 ∨ n % 30 = 4 ∨ n % 30 = 5 ∨ n % 30 = 6 := by
    omega
  rcases h5 with h | h | h | h | h <;> rw [h] <;> decide

/-- The candidates of the first W sieve words are exactly the
wheel-eligible integers in [7, 240W + 7), in increasing order. -/
theorem segmentCandidates_eq (W : Nat) :
    segmentCandidates W = (List.Ico 7 (240 * W + 7)).filter wheelCoprime := by
  induction W with
  | zero => simp [segmentCandidates]
  | succ W ih =>
    have hsplit2 : List.Ico 7 (240 * W + 242) =
        List.Ico 7 (240 * W + 7) ++ List.Ico (240 * W + 7) (240 * W + 242) :=
      (List.Ico.append_consecutive (by omega) (by omega)).symm
    have hsplit1 : List.Ico 7 (240 * (W + 1) + 7) =
        List.Ico 7 (240 * W + 242) ++ List.Ico (240 * W + 242) (240 * W + 247) := by
      rw [List.Ico.append_consecutive
        (show 7 ≤ 240 * W + 242 by omega)
        (show 240 * W + 242 ≤ 240 * W + 247 by omega)]
      congr 1
    rw [segmentCandidates, ih, blockValues_eq, hsplit1, List.filter_append,
      gap_filter_nil, hsplit2, List.filter_append]
    simp

/-- Membership in the candidate list of the first W sieve words. -/
theorem mem_segmentCandidates (W n : Nat) :
    n ∈ segmentCandidates W ↔ 7 ≤ n ∧ n < 240 * W + 7 ∧ Nat.gcd n 30 = 1 := by
  rw [segmentCandidates_eq, List.mem_filter, List.Ico.mem, wheelCoprime, beq_iff_eq]
  tauto

/-- The candidate list of the first W sieve words is strictly
increasing. -/
theorem sorted_segmentCandidates (W : Nat) :
    List.Sorted (· < ·) (segmentCandidates W) := by
  rw [segmentCandidates_eq]
  exact List.Pairwise.filter _ (List.Ico.pairwise_lt _ _)

end SegmentStructure


section TrialDivision

/-- The trial division test accepts exactly the primes. -/
theorem trialDivisionPrime_iff (n : Nat) :
    trialDivisionPrime n = true ↔ Nat.Prime n := by
  rw [trialDivisionPrime, Bool.and_eq_true, decide_eq_true_iff, List.all_eq_true,
    Nat.prime_def_lt']
  constructor
  · rintro ⟨h2, hall⟩
    refine ⟨h2, fun m hm hmn hdvd => ?_⟩
    have hmem : m ∈ List.Ico 2 n := List.Ico.mem.mpr ⟨hm, hmn⟩
    have hbit := hall m hmem
    rw [Bool.not_eq_true', beq_eq_false_iff_ne] at hbit
    exact hbit (Nat.dvd_iff_mod_eq_zero.mp hdvd)
  · rintro ⟨h2, hnd⟩
    refine ⟨h2, fun d hd => ?_⟩
    have hmem := List.Ico.mem.mp hd
    rw [Bool.not_eq_true', beq_eq_false_iff_ne]
    intro hmod
    exact hnd d hmem.1 hmem.2 (Nat.dvd_iff_mod_eq_zero.mpr hmod)

/-- Membership in the trial division prime list is being a prime of the
closed interval [a, b]. -/
theorem mem_trialDivisionPrimes (a b n : Nat) :
    n ∈ trialDivisionPrimes a b ↔ a ≤ n ∧ n ≤ b ∧ Nat.Prime n := by
  rw [trialDivisionPrimes, List.mem_filter, List.Ico.mem, trialDivisionPrime_iff]
  constructor
  · rintro ⟨⟨h1, h2⟩, h3⟩
    exact ⟨h1, by omega, h3⟩
  · rintro ⟨h1, h2, h3⟩
    exact ⟨⟨h1, by omega⟩, h3⟩

/-- The trial division prime list is strictly increasing. -/
theorem sorted_trialDivisionPrimes (a b : Nat) :
    List.Sorted (· < ·) (trialDivisionPrimes a b) :=
  List.Pairwise.filter _ (List.Ico.pairwise_lt _ _)

/-- A prime that is at least 7 is coprime to 30. -/
theorem prime_coprime_30 (n : Nat) (hp : Nat.Prime n) (h7 : 7 ≤ n) :
    Nat.gcd n 30 = 1 := by
  refine (Nat.Prime.coprime_iff_not_dvd hp).mpr ?_
  intro hdvd
  have h30 : n ≤ 30 := Nat.le_of_dvd (by norm_num) hdvd
  have hnone : ∀ m, m < 31 → 7 ≤ m → Nat.Prime m → ¬ (m ∣ 30) := by decide
  exact hnone n (by omega) h7 hp hdvd

/-- The crossing-off test succeeds exactly when some listed seed p with
p * p <= n divides n. -/
theorem crossedOff_iff (seeds : List Nat) (n : Nat) :
    crossedOff seeds n = true ↔ ∃ p ∈ seeds, p * p ≤ n ∧ n % p = 0 := by
  rw [crossedOff, List.any_eq_true]
  constructor
  · rintro ⟨p, hp, hcond⟩
    rw [Bool.and_eq_true, decide_eq_true_iff, beq_iff_eq] at hcond
    exact ⟨p, hp, hcond.1, hcond.2⟩
  · rintro ⟨p, hp, h1, h2⟩
    refine ⟨p, hp, ?_⟩
    rw [Bool.and_eq_true, decide_eq_true_iff, beq_iff_eq]
    exact ⟨h1, h2⟩

/-- A prime survives crossing off by any list of primes: crossing off
starts at the square of each seed, and no prime below n divides the
prime n. -/
theorem prime_not_crossedOff (seeds : List Nat) (n : Nat) (hp : Nat.Prime n)
    (hseeds : ∀ p ∈ seeds, Nat.Prime p) : crossedOff seeds n = false := by
  rw [← Bool.not_eq_true, crossedOff_iff]
  rintro ⟨p, hmem, hsq, hmod⟩
  have hpp := hseeds p hmem
  have hdvd : p ∣ n := Nat.dvd_iff_mod_eq_zero.mpr hmod
  rcases Nat.Prime.eq_one_or_self_of_dvd hp p hdvd with h1 | h1
  · exact absurd h1 (Nat.Prime.one_lt hpp).ne'
  · subst h1
    have h2 := Nat.Prime.two_le hpp
    have hple : p * 2 ≤ p * p := Nat.mul_le_mul_left p h2
    omega

/-- A number at least 7 that no prime p with p * p <= n divides is
prime: a composite n is divisible by its least prime factor, whose
square is at most n. -/
theorem survivor_prime (n : Nat) (h7 : 7 ≤ n)
    (hnc : ∀ p, Nat.Prime p → p * p ≤ n → ¬ p ∣ n) : Nat.Prime n := by
  by_contra hnp
  have hmin := Nat.minFac_prime (show n ≠ 1 by omega)
  have hdvd := Nat.minFac_dvd n
  have hsq := Nat.minFac_sq_le_self (show 0 < n by omega) hnp
  rw [pow_two] at hsq
  exact hnc n.minFac hmin hsq hdvd

end TrialDivision


/-- The segment generator emits, for every range [a, b], exactly the trial
division primes of [a, b]: the heart of C1, proved by strong induction on
b following the bootstrap recursion (the seeds of [a, b] come from the
nested instance over [0, sqrt b]). -/
theorem generatorEmit_eq_trialDivision (b : Nat) :
    ∀ a, generatorEmit a b = trialDivisionPrimes a b := by
  induction b using Nat.strong_induction_on with
  | _ b ih =>
    intro a
    by_cases hb : b < 2
    · rw [generatorEmit]
      simp only [dif_pos hb]
      symm
      rw [trialDivisionPrimes, List.filter_eq_nil_iff]
      intro n hn
      have hmem := List.Ico.mem.mp hn
      intro htd
      have hp := (trialDivisionPrime_iff n).mp htd
      have h2 := hp.two_le
      omega
    · have hseeds_eq : generatorEmit 0 (Nat.sqrt b) = trialDivisionPrimes 0 (Nat.sqrt b) :=
        ih (Nat.sqrt b) (Nat.sqrt_lt_self (by omega)) 0
      have hseeds_mem : ∀ p, p ∈ generatorEmit 0 (Nat.sqrt b) ↔
          p ≤ Nat.sqrt b ∧ Nat.Prime p := by
        intro p
        rw [hseeds_eq, mem_trialDivisionPrimes]
        constructor
        · rintro ⟨_, h2, h3⟩
          exact ⟨h2, h3⟩
        · rintro ⟨h2, h3⟩
          exact ⟨Nat.zero_le _, h2, h3⟩
      have hseeds_prime : ∀ p ∈ generatorEmit 0 (Nat.sqrt b), Nat.Prime p :=
        fun p hp => ((hseeds_mem p).mp hp).2
      rw [generatorEmit]
      simp only [dif_neg hb]
      have hsorted_small : List.Sorted (· < ·)
          (smallWheelPrimes.filter (fun p => decide (a ≤ p) && decide (p ≤ b))) :=
        List.Pairwise.filter _ (by decide)
      have hsorted_wheel : List.Sorted (· < ·)
          ((segmentCandidates (b / 240 + 1)).filter
            (fun n => decide (a ≤ n) && decide (n ≤ b) &&
              !crossedOff (generatorEmit 0 (Nat.sqrt b)) n)) :=
        List.Pairwise.filter _ (sorted_segmentCandidates _)
      have hsorted_left : List.Sorted (· < ·)
          (smallWheelPrimes.filter (fun p => decide (a ≤ p) && decide (p ≤ b)) ++
           (segmentCandidates (b / 240 + 1)).filter
             (fun n => decide (a ≤ n) && decide (n ≤ b) &&
               !crossedOff (generatorEmit 0 (Nat.sqrt b)) n)) := by
        refine List.pairwise_append.mpr ⟨hsorted_small, hsorted_wheel, ?_⟩
        intro x hx y hy
        have hx5 : x ≤ 5 := by
          have hxm := (List.mem_filter.mp hx).1
          have : x = 2 ∨ x = 3 ∨ x = 5 := by simpa [smallWheelPrimes] using hxm
          omega
        have hy7 : 7 ≤ y :=
          ((mem_segmentCandidates _ y).mp (List.mem_filter.mp hy).1).1
        omega
      refine List.eq_of_perm_of_sorted
        ((List.perm_ext_iff_of_nodup hsorted_left.nodup
          (sorted_trialDivisionPrimes a b).nodup).mpr ?_)
        hsorted_left (sorted_trialDivisionPrimes a b)
      intro n
      rw [List.mem_append, List.mem_filter, List.mem_filter, mem_trialDivisionPrimes]
      constructor
      · rintro (⟨hmem, hcond⟩ | ⟨hmem, hcond⟩)
        · rw [Bool.and_eq_true, decide_eq_true_iff, decide_eq_true_iff] at hcond
          refine ⟨hcond.1, hcond.2, ?_⟩
          have hn : n = 2 ∨ n = 3 ∨ n = 5 := by simpa [smallWheelPrimes] using hmem
          rcases hn with rfl | rfl | rfl <;> norm_num
        · rw [Bool.and_eq_true, Bool.and_eq_true, decide_eq_true_iff,
            decide_eq_true_iff, Bool.not_eq_true'] at hcond
          obtain ⟨⟨han, hnb⟩, hcross⟩ := hcond
          have hsc := (mem_segmentCandidates _ n).mp hmem
          refine ⟨han, hnb, ?_⟩
          apply survivor_prime n hsc.1
          intro p hpp hpsq hpdvd
          have hple : p ≤ Nat.sqrt b := Nat.le_sqrt.mpr (le_trans hpsq hnb)
          have hpmem : p ∈ generatorEmit 0 (Nat.sqrt b) :=
            (hseeds_mem p).mpr ⟨hple, hpp⟩
          have htrue : crossedOff (generatorEmit 0 (Nat.sqrt b)) n = true :=
            (crossedOff_iff _ _).mpr
              ⟨p, hpmem, hpsq, Nat.dvd_iff_mod_eq_zero.mp hpdvd⟩
          rw [hcross] at htrue
          cases htrue
      · rintro ⟨han, hnb, hp⟩
        by_cases hsmall : n ≤ 5
        · left
          refine ⟨?_, ?_⟩
          · have hin : ∀ m, m < 6 → Nat.Prime m → m ∈ smallWheelPrimes := by decide
            exact hin n (by omega) hp
          · rw [Bool.and_eq_true, decide_eq_true_iff, decide_eq_true_iff]
            exact ⟨han, hnb⟩
        · right
          have h2 := hp.two_le
          have h7 : 7 ≤ n := by
            have hne6 : n ≠ 6 := by
              rintro rfl
              norm_num at hp
            omega
          refine ⟨?_, ?_⟩
          · rw [mem_segmentCandidates]
            refine ⟨h7, ?_, prime_coprime_30 n hp h7⟩
            omega
          · rw [Bool.and_eq_true, Bool.and_eq_true, decide_eq_true_iff,
              decide_eq_true_iff, Bool.not_eq_true']
            exact ⟨⟨han, hnb⟩, prime_not_crossedOff _ n hp hseeds_prime⟩


/-- C1: for every range [a, b] - in particular for every b up to and
beyond 10^9 - the sequence of prime values the segment generator emits
outward equals the primes in [a, b] as computed by trial division: the
emitted list equals the trial division list, is strictly increasing and
has no duplicates, so no composite is present and no prime of the range
is missing. -/
theorem generator_output_matches_trial_division (a b : Nat) :
    generatorEmit a b = trialDivisionPrimes a b ∧
    List.Sorted (· < ·) (generatorEmit a b) ∧
    (generatorEmit a b).Nodup := by
  have h := generatorEmit_eq_trialDivision b a
  refine ⟨h, ?_, ?_⟩
  · rw [h]
    exact sorted_trialDivisionPrimes a b
  · rw [h]
    exact (sorted_trialDivisionPrimes a b).nodup

end Primesieve
